import Mathlib

/-!
Verification of the safe URL fetch-and-process pipeline of n8n-pysrv.

Shallow embedding of the core of `src/main.py` (header sanitizer, URL safety
validator) and `src/tools/utils/url_utils.py` (direct HTTP fetcher, rendered
browser fetcher, content processors, orchestrator).

Modelling conventions:
* Python strings are sequences of Unicode code points, embedded as `List Nat`.
* A Python `dict[str, str]` is an insertion-ordered association list with
  unique keys; `None` is `Option.none`.
* External libraries (`requests` response decoding, `ipaddress`
  classification, `playwright`, `html2text`, `readability`) are modelled as
  oracle data/functions supplied through environment records; the repository's
  own control flow around them is embedded faithfully.
* Fallible Python code (raising) returns `Except`.
-/

set_option linter.unusedVariables false

/-- Python strings as lists of code points. -/
abbrev Str := List Nat

/-- Code-point list of a Lean string literal, used to write concrete Python
string values. -/
def strLit (s : String) : Str := s.data.map Char.toNat

/-- Python `str.lower()` on a single code point: ASCII uppercase letters are
shifted down by 32, everything else is unchanged.  (Python's `str.lower` is
Unicode-aware; the code only relies on its behaviour on ASCII, which this
matches.) -/
def charLower (c : Nat) : Nat := if 65 ≤ c ∧ c ≤ 90 then c + 32 else c

/-- Python `str.lower()` over a whole string. -/
def strLower (s : Str) : Str := s.map charLower

/-- Membership in Python's default `str.strip()` whitespace set (ASCII part:
space, tab, newline, carriage return, vertical tab, form feed). -/
def pyIsSpace (c : Nat) : Bool :=
  c == 32 || c == 9 || c == 10 || c == 13 || c == 11 || c == 12

/-- Python `str.strip()`: drop leading and trailing whitespace. -/
def strStrip (s : Str) : Str :=
  ((s.dropWhile pyIsSpace).reverse.dropWhile pyIsSpace).reverse

/-- Python `s.startswith(pre)`. -/
def strStartsWith (s pre : Str) : Bool := pre.isPrefixOf s

/-- Python `s.endswith(suf)`. -/
def strEndsWith (s suf : Str) : Bool := suf.isSuffixOf s

/-- Python `dict[str, str]` as an insertion-ordered association list. -/
abbrev Headers := List (Str × Str)

/-! Header sanitizer, from `_sanitize_headers` in `src/main.py`. -/

/-- The `blocked` set of `_sanitize_headers`. -/
def blockedHeaderKeys : List Str :=
  [strLit ("host"), strLit ("content-length"),
   strLit ("transfer-encoding"), strLit ("connection")]

/-- Key normalisation `lk = k.lower().strip()` from `_sanitize_headers`. -/
def normKey (k : Str) : Str := strStrip (strLower k)

/-- Python dict assignment `d[k] = v` on an insertion-ordered association
list with unique keys: update the existing entry in place, else append. -/
def dictInsert : Headers → Str → Str → Headers
  | [], k, v => [(k, v)]
  | p :: rest, k, v =>
      if p.1 = k then (k, v) :: rest else p :: dictInsert rest k v

/-- The `for k, v in headers.items()` loop of `_sanitize_headers`: skip keys
whose normalised form is blocked, otherwise `clean[lk] = v`. -/
def sanitizeLoop : Headers → Headers → Headers
  | [], clean => clean
  | p :: rest, clean =>
      sanitizeLoop rest
        (if normKey p.1 ∈ blockedHeaderKeys then clean
         else dictInsert clean (normKey p.1) p.2)

/-- Embeds `_sanitize_headers` from `src/main.py`: `None` or an empty dict
yields `None` (`if not headers`), and a fully-filtered dict yields `None`
(`return clean or None`). -/
def _sanitize_headers (headers : Option Headers) : Option Headers :=
  match headers with
  | none => none
  | some hs =>
    if hs.isEmpty then none
    else
      let clean := sanitizeLoop hs []
      if clean.isEmpty then none else some clean

/-! URL safety validator, from `_is_ip_dangerous` and `_assert_url_safe` in
`src/main.py`.  The `ipaddress` classification of a resolved address is
external; it is modelled as a record of the six classification flags the code
reads.  The resolver argument models `socket.getaddrinfo` composed with
`ipaddress.ip_address`: `none` is a raised exception, `some ips` the parsed
address set.  The `host` argument is the already-parsed
`urlparse(raw_url).hostname or ""`. -/

/-- Classification flags of one resolved IP address as reported by Python's
`ipaddress` module. -/
structure IpInfo where
  is_private : Bool
  is_loopback : Bool
  is_link_local : Bool
  is_multicast : Bool
  is_reserved : Bool
  is_unspecified : Bool
deriving DecidableEq

/-- Embeds `_is_ip_dangerous` from `src/main.py`. -/
def _is_ip_dangerous (ip : IpInfo) : Bool :=
  ip.is_private || ip.is_loopback || ip.is_link_local ||
  ip.is_multicast || ip.is_reserved || ip.is_unspecified

/-- Reasons of the four `HTTPException` branches of `_assert_url_safe`. -/
inductive RejectReason where
  | blockedHostname
  | resolutionFailed
  | noAddresses
  | dangerousAddress
deriving DecidableEq

/-- Outcome of `_assert_url_safe`: normal return, or a raised 400. -/
inductive UrlVerdict where
  | accepted
  | rejected (reason : RejectReason)
deriving DecidableEq

/-- The literal blocked-hostname test of `_assert_url_safe`:
`host in {"localhost", "localhost.localdomain", "local"} or
host.endswith(".local")`. -/
def isBlockedHostname (host : Str) : Bool :=
  host == strLit ("localhost") || host == strLit ("localhost.localdomain") ||
  host == strLit ("local") || strEndsWith host (strLit (".local"))

/-- Embeds `_assert_url_safe` from `src/main.py`. -/
def _assert_url_safe (resolver : Str → Option (List IpInfo)) (host : Str) :
    UrlVerdict :=
  if isBlockedHostname host then UrlVerdict.rejected RejectReason.blockedHostname
  else
    match resolver host with
    | none => UrlVerdict.rejected RejectReason.resolutionFailed
    | some ips =>
      if ips.isEmpty then UrlVerdict.rejected RejectReason.noAddresses
      else if ips.any _is_ip_dangerous then
        UrlVerdict.rejected RejectReason.dangerousAddress
      else UrlVerdict.accepted

/-! Direct HTTP fetcher, from `_fetch_with_request` in
`src/tools/utils/url_utils.py`.  The network transaction of `requests.get`
(timeout, default/caller header merge, redirect policy) produces an
`HttpResponse`; the function's own control flow over that response — the
status check, the `Content-Type` gate, the chunked size-bounded read loop and
the decode — is embedded faithfully.  The second component of the result is
the number of body bytes the loop consumed from the stream. -/

/-- Errors raised by `_fetch_with_request`: `response.raise_for_status()`,
the disallowed `Content-Type` `ValueError`, and the size-limit
`ValueError`. -/
inductive FetchError where
  | httpStatusError
  | unsupportedContentType
  | sizeLimitExceeded
deriving DecidableEq

/-- Inputs that an HTTP response supplies to `_fetch_with_request`.
`decodeBody` stands for the external charset pipeline
`raw_bytes.decode(response.encoding or response.apparent_encoding or
"utf-8", errors="replace")`.  `contentLengthHeader` records the declared
`Content-Length`; the code never reads it. -/
structure HttpResponse where
  statusOk : Bool
  contentType : Str
  contentLengthHeader : Option Nat
  bodyChunks : List (List Nat)
  decodeBody : List Nat → Str

/-- Replaces the declared `Content-Length` of a response, leaving every
other field unchanged (used to state independence from that header). -/
def setContentLength (resp : HttpResponse) (n : Option Nat) : HttpResponse :=
  ⟨resp.statusOk, resp.contentType, n, resp.bodyChunks, resp.decodeBody⟩

/-- The default `allowed_types` list of `_fetch_with_request`. -/
def defaultAllowedTypes : List Str :=
  [strLit ("text/"), strLit ("application/xhtml"), strLit ("application/xml")]

/-- `allowed_types = list(allowed_content_types) if allowed_content_types
else [defaults]`: `None` and the empty iterable are falsy. -/
def allowedTypesOf (act : Option (List Str)) : List Str :=
  match act with
  | none => defaultAllowedTypes
  | some l => if l.isEmpty then defaultAllowedTypes else l

/-- The `Content-Type` gate: `ctype = response.headers.get("Content-Type",
"").lower()` followed by `any(ctype.startswith(prefix) for prefix in
allowed_types)`. -/
def contentTypeAllowed (allowedTypes : List Str) (ctype : Str) : Bool :=
  allowedTypes.any (fun pre => strStartsWith (strLower ctype) pre)

/-- Total number of bytes of a chunk stream. -/
def sumLen : List (List Nat) → Nat
  | [] => 0
  | c :: cs => c.length + sumLen cs

/-- The chunked read loop of `_fetch_with_request`: skip empty chunks, add
each chunk's length to the running total, abort with the size-limit error as
soon as the total exceeds `maxBytes`, else append the chunk.  Also returns
the number of bytes consumed from the stream. -/
def readBody (maxBytes : Nat) :
    List (List Nat) → Nat → List Nat → Except FetchError (List Nat) × Nat
  | [], total, acc => (Except.ok acc, total)
  | c :: cs, total, acc =>
    if c.length = 0 then readBody maxBytes cs total acc
    else
      if total + c.length > maxBytes then
        (Except.error FetchError.sizeLimitExceeded, total + c.length)
      else readBody maxBytes cs (total + c.length) (acc ++ c)

/-- Embeds `_fetch_with_request` from `src/tools/utils/url_utils.py`:
status check, then `Content-Type` gate, then the bounded body read, then
decoding.  The second component is the number of body bytes consumed. -/
def _fetch_with_request (resp : HttpResponse) (maxBytes : Nat)
    (act : Option (List Str)) : Except FetchError Str × Nat :=
  if ¬ resp.statusOk then (Except.error FetchError.httpStatusError, 0)
  else if ¬ contentTypeAllowed (allowedTypesOf act) resp.contentType then
    (Except.error FetchError.unsupportedContentType, 0)
  else
    match readBody maxBytes resp.bodyChunks 0 [] with
    | (Except.ok bytes, n) => (Except.ok (resp.decodeBody bytes), n)
    | (Except.error e, n) => (Except.error e, n)

/-! Rendered browser fetcher, from `_fetch_with_browser` in
`src/tools/utils/url_utils.py`.  Playwright operations are external; the
environment records which of them succeed.  The embedding mirrors the
code's resource structure: `launch` and `new_context` run before the
`try`, the page work runs inside the `try`, the `finally` closes the
context and the browser, and the surrounding `with sync_playwright()`
block runs `Playwright.stop()` on every exit, which closes any browsers
it created that are still running (documented Playwright behaviour).
The consent-dialog scan and the network-idle wait are each wrapped in
`try/except: pass`, so their failures cannot change control flow and are
not represented.  `BrowserState` tracks which OS resources are still
held when the call exits. -/

/-- Failure points of `_fetch_with_browser`: the playwright import and
each page operation that can raise out of the function. -/
inductive BrowserError where
  | renderingEngineUnavailable
  | launchFailed
  | contextFailed
  | pageFailed
  | initScriptFailed
  | setHeadersFailed
  | gotoFailed
  | waitFailed
  | contentFailed
deriving DecidableEq

/-- Which browser-side OS resources are still held. -/
structure BrowserState where
  browserOpen : Bool
  contextOpen : Bool
deriving DecidableEq

/-- Oracle for the external playwright operations: which ones succeed, and
the serialized document `page.content()` would return. -/
structure BrowserEnv where
  hasPlaywright : Bool
  launchOk : Bool
  newContextOk : Bool
  newPageOk : Bool
  initScriptOk : Bool
  setHeadersOk : Bool
  gotoOk : Bool
  waitJsOk : Bool
  contentOk : Bool
  contentText : Str

/-- The region of `_fetch_with_browser` inside `with sync_playwright()`:
`launch`, `new_context`, then the `try ... finally` block.  A `new_context`
failure escapes before the `try`, leaving the launched browser open (only
the enclosing `with` block cleans it up); every path that enters the `try`
runs the `finally`, which closes the context and the browser. -/
def browserBody (env : BrowserEnv) (headers : Option Headers) :
    Except BrowserError Str × BrowserState :=
  if ¬ env.launchOk then (Except.error BrowserError.launchFailed, ⟨false, false⟩)
  else if ¬ env.newContextOk then
    (Except.error BrowserError.contextFailed, ⟨true, false⟩)
  else
    let tryResult : Except BrowserError Str :=
      if ¬ env.newPageOk then Except.error BrowserError.pageFailed
      else if ¬ env.initScriptOk then Except.error BrowserError.initScriptFailed
      else if headers.isSome ∧ ¬ env.setHeadersOk then
        Except.error BrowserError.setHeadersFailed
      else if ¬ env.gotoOk then Except.error BrowserError.gotoFailed
      else if ¬ env.waitJsOk then Except.error BrowserError.waitFailed
      else if ¬ env.contentOk then Except.error BrowserError.contentFailed
      else Except.ok env.contentText
    (tryResult, ⟨false, false⟩)

/-- `Playwright.stop()`, run by the `with sync_playwright()` block on every
exit: closes all browsers created by this playwright instance that are
still running, and with them their contexts. -/
def playwrightStop (st : BrowserState) : BrowserState := ⟨false, false⟩

/-- Embeds `_fetch_with_browser` from `src/tools/utils/url_utils.py`:
the playwright import guard, then the `with sync_playwright()` block. -/
def _fetch_with_browser (env : BrowserEnv) (headers : Option Headers) :
    Except BrowserError Str × BrowserState :=
  if ¬ env.hasPlaywright then
    (Except.error BrowserError.renderingEngineUnavailable, ⟨false, false⟩)
  else
    let r := browserBody env headers
    (r.1, playwrightStop r.2)

/-! Content processors, from `_process_raw`, `_process_to_markdown` and
`_process_with_readability` in `src/tools/utils/url_utils.py`.  The
`html2text` converter and the `readability` extractor are external; they are
modelled as oracle functions in a `TextEnv`.  `h2tHandle` is keyed on the
configuration the code builds (the two call sites differ only in the
`ignore_links` / `ignore_images` flags; `body_width = 0`, `unicode_snob` and
`escape_snob` are set identically at both). -/

/-- The `HTML2Text` configuration flags that differ between call sites. -/
structure H2TConfig where
  ignore_links : Bool
  ignore_images : Bool
deriving DecidableEq

/-- Configuration built by `_process_to_markdown`: links and images kept. -/
def mdConfig : H2TConfig := ⟨false, false⟩

/-- Configuration built by `_process_with_readability`: links and images
ignored. -/
def rdConfig : H2TConfig := ⟨true, true⟩

/-- Oracles for the external text libraries: the `html2text` conversion and
the `readability.Document` title/summary extraction.  An empty `docTitle`
result models a falsy title. -/
structure TextEnv where
  h2tHandle : H2TConfig → Str → Str
  hasReadability : Bool
  docTitle : Str → Str
  docSummary : Str → Str

/-- Embeds `_process_raw`: the identity transform. -/
def _process_raw (content : Str) : Str := content

/-- Embeds the successful path of `_process_to_markdown`: convert with the
links-and-images-kept configuration, then `strip()`. -/
def _process_to_markdown (tenv : TextEnv) (content : Str) : Str :=
  strStrip (tenv.h2tHandle mdConfig content)

/-- The extraction text `_process_with_readability` computes before its
length test: title and summary from `readability.Document`, combined as
`f"# {title}\n\n{summary_html}" if title else summary_html`, converted with
the links-and-images-ignored configuration, then `strip()`. -/
def readabilityText (tenv : TextEnv) (content : Str) : Str :=
  let title := tenv.docTitle content
  let summary := tenv.docSummary content
  let full :=
    if title.isEmpty then summary
    else strLit ("# ") ++ title ++ strLit ("\n\n") ++ summary
  strStrip (tenv.h2tHandle rdConfig full)

/-- Embeds `_process_with_readability`: fall back to Markdown on the whole
raw content when the library is missing, or when the extracted text is
shorter than 200 characters; otherwise return the extracted text. -/
def _process_with_readability (tenv : TextEnv) (content : Str) : Str :=
  if ¬ tenv.hasReadability then _process_to_markdown tenv content
  else
    let text := readabilityText tenv content
    if text.length < 200 then _process_to_markdown tenv content
    else text

/-! Orchestrator, from `get_url_content` in `src/tools/utils/url_utils.py`:
dispatch on the fetch method, dispatch on the process method, then the
character-count cap `processed_content[:max_chars]`. -/

/-- The two members of the `FetchMethod` enum. -/
inductive FetchMethod where
  | REQUEST
  | BROWSER
deriving DecidableEq

/-- The three members of the `ProcessMethod` enum. -/
inductive ProcessMethod where
  | RAW
  | MARKDOWN
  | READABILITY
deriving DecidableEq

/-- Errors that propagate out of `get_url_content` (the function logs and
re-raises; it never converts one error into another). -/
inductive GetError where
  | requestError (e : FetchError)
  | browserError (e : BrowserError)
deriving DecidableEq

/-- Step 1 of `get_url_content`: run the selected fetcher. -/
def fetchContent (fm : FetchMethod) (resp : HttpResponse) (benv : BrowserEnv)
    (headers : Option Headers) (maxBytes : Nat) (act : Option (List Str)) :
    Except GetError Str :=
  match fm with
  | FetchMethod.REQUEST =>
    match (_fetch_with_request resp maxBytes act).1 with
    | Except.ok s => Except.ok s
    | Except.error e => Except.error (GetError.requestError e)
  | FetchMethod.BROWSER =>
    match (_fetch_with_browser benv headers).1 with
    | Except.ok s => Except.ok s
    | Except.error e => Except.error (GetError.browserError e)

/-- Step 2 of `get_url_content`: run the selected processor. -/
def applyProcess (tenv : TextEnv) (pm : ProcessMethod) (raw : Str) : Str :=
  match pm with
  | ProcessMethod.RAW => _process_raw raw
  | ProcessMethod.MARKDOWN => _process_to_markdown tenv raw
  | ProcessMethod.READABILITY => _process_with_readability tenv raw

/-- The size-control step of `get_url_content`: `if processed_content and
len(processed_content) > max_chars: processed_content =
processed_content[:max_chars]`. -/
def truncateChars (s : Str) (maxChars : Nat) : Str :=
  if ¬ s.isEmpty ∧ maxChars < s.length then s.take maxChars else s

/-- Embeds `get_url_content` from `src/tools/utils/url_utils.py`. -/
def get_url_content (fm : FetchMethod) (pm : ProcessMethod)
    (resp : HttpResponse) (benv : BrowserEnv) (tenv : TextEnv)
    (headers : Option Headers) (maxBytes maxChars : Nat)
    (act : Option (List Str)) : Except GetError Str :=
  match fetchContent fm resp benv headers maxBytes act with
  | Except.error e => Except.error e
  | Except.ok raw => Except.ok (truncateChars (applyProcess tenv pm raw) maxChars)

/-! Specification-side helpers used only to state properties. -/

/-- Value of the last pair of `hs` whose normalised key is `k`, if any:
the value a key ends up bound to after the whole sanitising loop. -/
def lastValueFor : Headers → Str → Option Str
  | [], _ => none
  | p :: rest, k =>
    match lastValueFor rest k with
    | some v => some v
    | none => if normKey p.1 = k then some p.2 else none

/-! Claim C2: blocked hostnames are rejected without DNS resolution. -/

/-- C2: for every URL whose (parsed) hostname is one of the literal names
"localhost", "localhost.localdomain", "local", or ends with ".local", the
validator returns the blocked-hostname rejection immediately, for every
behaviour of the resolver — so DNS resolution cannot influence the result. -/
theorem assert_url_safe_blocked (host : Str)
    (resolver : Str → Option (List IpInfo))
    (h : isBlockedHostname host = true) :
    _assert_url_safe resolver host =
      UrlVerdict.rejected RejectReason.blockedHostname := by
  simp [_assert_url_safe, h]

/-- Witness for C2: the hostname "internal.local" with a resolver that
always fails is rejected as a blocked hostname. -/
theorem assert_url_safe_blocked_witness :
    _assert_url_safe (fun _ => none) (strLit ("internal.local")) =
      UrlVerdict.rejected RejectReason.blockedHostname :=
  assert_url_safe_blocked (strLit ("internal.local")) (fun _ => none) (by decide)

/-! Claim C3: dangerous resolved addresses are rejected, and acceptance
requires every resolved address to pass all six classification checks. -/

/-- C3: when the hostname is not literally blocked and resolution yields a
non-empty address list, the validator rejects with the dangerous-address
reason exactly when some resolved address is private, loopback, link-local,
multicast, reserved or unspecified, and accepts exactly when every resolved
address passes all of these checks. -/
theorem assert_url_safe_dangerous (host : Str)
    (resolver : Str → Option (List IpInfo)) (ips : List IpInfo)
    (hnb : isBlockedHostname host = false)
    (hres : resolver host = some ips) (hne : ips ≠ []) :
    (_assert_url_safe resolver host =
        UrlVerdict.rejected RejectReason.dangerousAddress ↔
      ∃ ip ∈ ips, _is_ip_dangerous ip = true) ∧
    (_assert_url_safe resolver host = UrlVerdict.accepted ↔
      ∀ ip ∈ ips, _is_ip_dangerous ip = false) := by
  have hie : ips.isEmpty = false := by
    cases ips with
    | nil => exact absurd rfl hne
    | cons a l => rfl
  by_cases hany : ips.any _is_ip_dangerous
  · constructor
    · simp only [_assert_url_safe, hnb, hres, hie, hany]
      simpa using List.any_eq_true.mp hany
    · simp only [_assert_url_safe, hnb, hres, hie, hany]
      constructor
      · intro hcontra
        exact absurd hcontra (by simp)
      · intro hall
        rcases List.any_eq_true.mp hany with ⟨ip, hmem, hdanger⟩
        rw [hall ip hmem] at hdanger
        cases hdanger
  · have hany' : ips.any _is_ip_dangerous = false := by
      cases h : ips.any _is_ip_dangerous
      · rfl
      · exact absurd h hany
    constructor
    · simp only [_assert_url_safe, hnb, hres, hie, hany']
      constructor
      · intro hcontra
        exact absurd hcontra (by simp)
      · intro hex
        rcases hex with ⟨ip, hmem, hdanger⟩
        have := List.any_eq_false.mp hany' ip hmem
        simp [hdanger] at this
    · simp only [_assert_url_safe, hnb, hres, hie, hany']
      constructor
      · intro _ ip hmem
        have := List.any_eq_false.mp hany' ip hmem
        simpa using this
      · intro _
        rfl

/-- Dangerous example address for the C3 witness: a loopback address. -/
def loopbackIp : IpInfo := ⟨false, true, false, false, false, false⟩

/-- Witness for C3: a hostname resolving exactly to a loopback address is
rejected as dangerous, and is not accepted. -/
theorem assert_url_safe_dangerous_witness :
    (_assert_url_safe (fun _ => some [loopbackIp]) (strLit ("example.com")) =
        UrlVerdict.rejected RejectReason.dangerousAddress ↔
      ∃ ip ∈ [loopbackIp], _is_ip_dangerous ip = true) ∧
    (_assert_url_safe (fun _ => some [loopbackIp]) (strLit ("example.com")) =
        UrlVerdict.accepted ↔
      ∀ ip ∈ [loopbackIp], _is_ip_dangerous ip = false) :=
  assert_url_safe_dangerous (strLit ("example.com")) (fun _ => some [loopbackIp])
    [loopbackIp] (by decide) rfl (by simp)

/-! Claim C7: a short readability extraction is discarded in favour of the
Markdown processor applied to the original raw content. -/

/-- C7: whenever the readability library is available and the extracted,
converted and stripped text is shorter than 200 characters, the readability
processor's output is identical to the Markdown processor's output on the
same original raw content. -/
theorem readability_short_fallback (tenv : TextEnv) (content : Str)
    (hlib : tenv.hasReadability = true)
    (hshort : (readabilityText tenv content).length < 200) :
    _process_with_readability tenv content = _process_to_markdown tenv content := by
  simp [_process_with_readability, hlib, hshort]

/-- Oracle environment for the C7 witness: an identity converter and an
extractor returning an empty title and summary. -/
def tenvC7 : TextEnv :=
  ⟨fun _ s => s, true, fun _ => [], fun _ => []⟩

/-- Witness for C7: on a tiny document the extraction text is empty (shorter
than 200 characters), so readability output equals Markdown output. -/
theorem readability_short_fallback_witness :
    _process_with_readability tenvC7 (strLit ("<html><body>hi</body></html>")) =
      _process_to_markdown tenvC7 (strLit ("<html><body>hi</body></html>")) :=
  readability_short_fallback tenvC7 (strLit ("<html><body>hi</body></html>"))
    rfl (by decide)

/-! Claim C8: the rendered browser fetcher releases the browsing context and
the browser instance on every exit path. -/

/-- C8: for every oracle behaviour and header set, the rendered fetcher
exits with both the browser and the context released; moreover on every
path that reaches the `try` block — normal return and errors raised while
setting up the page, navigating, or extracting content — the function's own
`finally` block has already released both, before the enclosing playwright
scope is even torn down. -/
theorem fetch_with_browser_teardown (env : BrowserEnv)
    (headers : Option Headers) :
    ((_fetch_with_browser env headers).2.browserOpen = false ∧
      (_fetch_with_browser env headers).2.contextOpen = false) ∧
    (env.launchOk = true → env.newContextOk = true →
      (browserBody env headers).2.browserOpen = false ∧
      (browserBody env headers).2.contextOpen = false) := by
  constructor
  · unfold _fetch_with_browser
    by_cases hpw : env.hasPlaywright
    · simp [hpw, playwrightStop]
    · simp [hpw]
  · intro h1 h2
    simp [browserBody, h1, h2]

/-- Oracle environment for the C8 witness: everything succeeds except the
navigation step, which raises inside the `try` block. -/
def envC8 : BrowserEnv :=
  ⟨true, true, true, true, true, true, false, true, true, []⟩

/-- Witness for C8: with a failing navigation, the `finally` block has
released both resources by the time the `try` region is exited. -/
theorem fetch_with_browser_teardown_witness :
    (browserBody envC8 none).2.browserOpen = false ∧
    (browserBody envC8 none).2.contextOpen = false :=
  (fetch_with_browser_teardown envC8 none).2 rfl rfl

/-! Claim C4: a disallowed Content-Type fails before any body byte is
consumed. -/

/-- C4: whenever the status check passes but the lower-cased Content-Type
matches none of the configured allowed prefixes, the direct fetcher fails
with the unsupported-content-type error having consumed zero body bytes —
the gate runs strictly before the body read loop. -/
theorem fetch_request_unsupported_ctype (resp : HttpResponse) (maxBytes : Nat)
    (act : Option (List Str)) (hok : resp.statusOk = true)
    (hct : contentTypeAllowed (allowedTypesOf act) resp.contentType = false) :
    _fetch_with_request resp maxBytes act =
      (Except.error FetchError.unsupportedContentType, 0) := by
  simp [_fetch_with_request, hok, hct]

/-- Response for the C4 witness: an OK status with an image Content-Type. -/
def respC4 : HttpResponse :=
  ⟨true, strLit ("image/png"), none, [[1, 2]], fun b => b⟩

/-- Witness for C4: an image/png response is refused with zero bytes
consumed. -/
theorem fetch_request_unsupported_ctype_witness :
    _fetch_with_request respC4 100 none =
      (Except.error FetchError.unsupportedContentType, 0) :=
  fetch_request_unsupported_ctype respC4 100 none rfl (by decide)

/-- Helper for C1: whenever the remaining chunks push the running total past
`maxBytes`, the read loop aborts with the size-limit error at the first
chunk whose addition crosses the bound, having consumed exactly the bytes up
to and including that chunk — the chunks after it are never read. -/
theorem readBody_limit (maxBytes : Nat) (chunks : List (List Nat)) :
    ∀ (total : Nat) (acc : List Nat), total ≤ maxBytes →
      maxBytes < total + sumLen chunks →
      ∃ pre c rest, chunks = pre ++ c :: rest ∧
        total + sumLen pre ≤ maxBytes ∧
        maxBytes < total + sumLen pre + c.length ∧
        readBody maxBytes chunks total acc =
          (Except.error FetchError.sizeLimitExceeded,
            total + sumLen pre + c.length) := by
  induction chunks with
  | nil =>
    intro total acc h1 h2
    simp [sumLen] at h2
    omega
  | cons c cs ih =>
    intro total acc h1 h2
    by_cases hc : c.length = 0
    · have h2' : maxBytes < total + sumLen cs := by
        simp [sumLen, hc] at h2
        omega
      obtain ⟨pre, c', rest, hsplit, hle, hlt, heq⟩ := ih total acc h1 h2'
      refine ⟨c :: pre, c', rest, by rw [hsplit, List.cons_append], ?_, ?_, ?_⟩
      · simp [sumLen, hc]
        omega
      · simp [sumLen, hc]
        omega
      · rw [show readBody maxBytes (c :: cs) total acc =
              readBody maxBytes cs total acc from by simp [readBody, hc]]
        rw [heq]
        have harith : total + sumLen (c :: pre) + c'.length =
            total + sumLen pre + c'.length := by
          simp [sumLen, hc]
        rw [harith]
    · by_cases hlim : total + c.length > maxBytes
      · refine ⟨[], c, cs, rfl, ?_, ?_, ?_⟩
        · simpa [sumLen] using h1
        · simp [sumLen]
          omega
        · simp [readBody, hc, hlim, sumLen]
      · have hle' : total + c.length ≤ maxBytes := by omega
        have h2' : maxBytes < (total + c.length) + sumLen cs := by
          simp [sumLen] at h2
          omega
        obtain ⟨pre, c', rest, hsplit, hle, hlt, heq⟩ :=
          ih (total + c.length) (acc ++ c) hle' h2'
        refine ⟨c :: pre, c', rest, by rw [hsplit, List.cons_append], ?_, ?_, ?_⟩
        · simp [sumLen]
          omega
        · simp [sumLen]
          omega
        · rw [show readBody maxBytes (c :: cs) total acc =
                readBody maxBytes cs (total + c.length) (acc ++ c) from by
              simp [readBody, hc, hlim]]
          rw [heq]
          have harith : total + sumLen (c :: pre) + c'.length =
              total + c.length + sumLen pre + c'.length := by
            simp [sumLen]
            omega
          rw [harith]

/-! Claim C1: the direct fetcher aborts with the size-limit error as soon as
the cumulative read bytes exceed `maxBytes`. -/

/-- C1: for every response whose body exceeds `maxBytes`, once the status
and Content-Type gates pass, the direct fetcher returns the size-limit
error: the abort happens at the first chunk that pushes the running total
past the bound (so the full body is never buffered and no content is
returned), and the result is unchanged under every declared Content-Length
header. -/
theorem fetch_request_size_limit (resp : HttpResponse) (maxBytes : Nat)
    (act : Option (List Str)) (hok : resp.statusOk = true)
    (hct : contentTypeAllowed (allowedTypesOf act) resp.contentType = true)
    (hsz : maxBytes < sumLen resp.bodyChunks) :
    (∃ pre c rest, resp.bodyChunks = pre ++ c :: rest ∧
       sumLen pre ≤ maxBytes ∧ maxBytes < sumLen pre + c.length ∧
       _fetch_with_request resp maxBytes act =
         (Except.error FetchError.sizeLimitExceeded, sumLen pre + c.length)) ∧
    (∀ n, _fetch_with_request (setContentLength resp n) maxBytes act =
          _fetch_with_request resp maxBytes act) := by
  constructor
  · obtain ⟨pre, c, rest, hsplit, hle, hlt, heq⟩ :=
      readBody_limit maxBytes resp.bodyChunks 0 [] (Nat.zero_le _) (by omega)
    refine ⟨pre, c, rest, hsplit, by omega, by omega, ?_⟩
    simp only [_fetch_with_request, hok, hct]
    rw [heq]
    simp
  · intro n
    rfl

/-- Response for the C1 witness: five body bytes in two chunks. -/
def respC1 : HttpResponse :=
  ⟨true, strLit ("text/html"), none, [[10, 11, 12], [13, 14]], fun b => b⟩

/-- Witness for C1: with `maxBytes = 3`, the five-byte body aborts at the
second chunk with five bytes consumed, independently of any declared
Content-Length. -/
theorem fetch_request_size_limit_witness :
    (∃ pre c rest, respC1.bodyChunks = pre ++ c :: rest ∧
       sumLen pre ≤ 3 ∧ 3 < sumLen pre + c.length ∧
       _fetch_with_request respC1 3 none =
         (Except.error FetchError.sizeLimitExceeded, sumLen pre + c.length)) ∧
    (∀ n, _fetch_with_request (setContentLength respC1 n) 3 none =
          _fetch_with_request respC1 3 none) :=
  fetch_request_size_limit respC1 3 none rfl (by decide) (by decide)

/-! Claim C5: every successful result is at most `maxChars` characters, cut
as a plain prefix of the processed text by the orchestrator. -/

/-- C5: whenever `get_url_content` completes successfully, the returned
content has at most `maxChars` characters, and it is a prefix of the
selected processor's output on the fetched raw content — the remainder is
silently discarded with no marker, and when anything was discarded the
returned content is exactly `maxChars` characters long. -/
theorem get_url_content_truncation (fm : FetchMethod) (pm : ProcessMethod)
    (resp : HttpResponse) (benv : BrowserEnv) (tenv : TextEnv)
    (headers : Option Headers) (maxBytes maxChars : Nat)
    (act : Option (List Str)) (content : Str)
    (h : get_url_content fm pm resp benv tenv headers maxBytes maxChars act =
      Except.ok content) :
    content.length ≤ maxChars ∧
    ∃ raw rest, fetchContent fm resp benv headers maxBytes act = Except.ok raw ∧
      applyProcess tenv pm raw = content ++ rest ∧
      (rest ≠ [] → content.length = maxChars) := by
  cases hfetch : fetchContent fm resp benv headers maxBytes act with
  | error e =>
    simp only [get_url_content, hfetch] at h
    cases h
  | ok raw =>
    simp only [get_url_content, hfetch, Except.ok.injEq] at h
    by_cases hcond :
        ¬ (applyProcess tenv pm raw).isEmpty ∧
          maxChars < (applyProcess tenv pm raw).length
    · have hco : content = (applyProcess tenv pm raw).take maxChars := by
        rw [← h]
        simp [truncateChars, hcond]
      constructor
      · rw [hco]
        simp [List.length_take]
      · refine ⟨raw, (applyProcess tenv pm raw).drop maxChars, rfl, ?_, ?_⟩
        · rw [hco]
          exact (List.take_append_drop maxChars (applyProcess tenv pm raw)).symm
        · intro _
          rw [hco]
          simp [List.length_take]
          omega
    · have hco : content = applyProcess tenv pm raw := by
        rw [← h]
        unfold truncateChars
        rw [if_neg hcond]
      constructor
      · rw [hco]
        by_cases hemp : (applyProcess tenv pm raw).isEmpty
        · simp [List.isEmpty_iff.mp hemp]
        · have hlen : ¬ maxChars < (applyProcess tenv pm raw).length := by
            intro hlt
            exact hcond ⟨hemp, hlt⟩
          omega
      · refine ⟨raw, [], rfl, by rw [hco]; simp, ?_⟩
        intro hcontra
        exact absurd rfl hcontra

/-- Response for the C5 witness: a two-byte text body. -/
def respC5 : HttpResponse :=
  ⟨true, strLit ("text/html"), none, [[104, 105]], fun b => b⟩

/-- Text-library oracle for the C5 witness. -/
def tenvC5 : TextEnv := ⟨fun _ s => s, true, fun _ => [], fun _ => []⟩

/-- Browser oracle for the C5 witness (unused by the REQUEST path). -/
def benvC5 : BrowserEnv := ⟨true, true, true, true, true, true, true, true, true, []⟩

/-- Witness for C5: a two-character raw result with `maxChars = 1` comes
back as the one-character prefix. -/
theorem get_url_content_truncation_witness :
    ([104] : Str).length ≤ 1 ∧
    ∃ raw rest,
      fetchContent FetchMethod.REQUEST respC5 benvC5 none 10 none =
        Except.ok raw ∧
      applyProcess tenvC5 ProcessMethod.RAW raw = [104] ++ rest ∧
      (rest ≠ [] → ([104] : Str).length = 1) :=
  get_url_content_truncation FetchMethod.REQUEST ProcessMethod.RAW respC5
    benvC5 tenvC5 none 10 1 none [104] rfl

/-- Lowering a code point twice is the same as lowering it once. -/
theorem charLower_idem (c : Nat) : charLower (charLower c) = charLower c := by
  unfold charLower
  split_ifs <;> omega

/-- A lowered code point is never an ASCII uppercase letter. -/
theorem charLower_not_upper (d : Nat) :
    ¬ (65 ≤ charLower d ∧ charLower d ≤ 90) := by
  unfold charLower
  split_ifs with h <;> omega

/-- Lowering a string twice is the same as lowering it once. -/
theorem strLower_idem (s : Str) : strLower (strLower s) = strLower s := by
  simp [strLower, List.map_map, Function.comp_def, charLower_idem]

/-! Claim C10: the Content-Type value is lower-cased before the prefix test,
while configured prefixes are compared case-sensitively. -/

/-- C10: the declared Content-Type "TEXT/HTML" passes the default allowed
prefixes; more generally the gate's verdict on any declared type equals its
verdict on the lower-cased type, because the value is lower-cased before the
test; and a caller-supplied allowed prefix containing an ASCII uppercase
letter can never match any declared Content-Type whatsoever. -/
theorem fetch_content_type_casing :
    (contentTypeAllowed defaultAllowedTypes (strLit ("TEXT/HTML")) = true) ∧
    (∀ ct : Str, contentTypeAllowed defaultAllowedTypes (strLower ct) =
        contentTypeAllowed defaultAllowedTypes ct) ∧
    (∀ (pfx ct : Str) (c : Nat), c ∈ pfx → 65 ≤ c → c ≤ 90 →
        contentTypeAllowed [pfx] ct = false) := by
  refine ⟨by decide, ?_, ?_⟩
  · intro ct
    simp only [contentTypeAllowed, strStartsWith, strLower_idem]
  · intro pfx ct c hmem h65 h90
    simp only [contentTypeAllowed, List.any_cons, List.any_nil, Bool.or_false]
    cases hsw : strStartsWith (strLower ct) pfx
    · rfl
    · exfalso
      have hsw' : pfx.isPrefixOf (strLower ct) = true := hsw
      have hp : pfx <+: strLower ct := List.isPrefixOf_iff_prefix.mp hsw'
      have hcmem : c ∈ strLower ct := hp.subset hmem
      simp only [strLower] at hcmem
      rcases List.mem_map.mp hcmem with ⟨d, hd, hde⟩
      have hnu := charLower_not_upper d
      rw [hde] at hnu
      exact hnu ⟨h65, h90⟩

/-- Witness for C10: the upper-cased caller prefix "Text/" fails to match
even the declared type "text/html" that its lower-casing would match. -/
theorem fetch_content_type_casing_witness :
    contentTypeAllowed [strLit ("Text/")] (strLit ("text/html")) = false :=
  fetch_content_type_casing.2.2 (strLit ("Text/")) (strLit ("text/html")) 84
    (by decide) (by decide) (by decide)

/-! Helper lemmas about the sanitising loop, shared by the header claims. -/

/-- Every entry of `dictInsert d k v` either has key `k` or was already in
`d`. -/
theorem dictInsert_keys (d : Headers) (k v : Str) :
    ∀ q ∈ dictInsert d k v, q.1 = k ∨ q ∈ d := by
  induction d with
  | nil =>
    intro q hq
    simp [dictInsert] at hq
    left
    rw [hq]
  | cons p rest ih =>
    intro q hq
    simp only [dictInsert] at hq
    by_cases hpk : p.1 = k
    · rw [if_pos hpk] at hq
      rcases List.mem_cons.mp hq with hq1 | hq2
      · left
        rw [hq1]
      · right
        exact List.mem_cons_of_mem _ hq2
    · rw [if_neg hpk] at hq
      rcases List.mem_cons.mp hq with hq1 | hq2
      · right
        rw [hq1]
        exact List.mem_cons_self _ _
      · rcases ih q hq2 with h1 | h2
        · left
          exact h1
        · right
          exact List.mem_cons_of_mem _ h2

/-- Inserting into a dict with pairwise-distinct keys keeps keys pairwise
distinct. -/
theorem dictInsert_pairwise (d : Headers) (k v : Str)
    (hnd : d.Pairwise (fun a b => a.1 ≠ b.1)) :
    (dictInsert d k v).Pairwise (fun a b => a.1 ≠ b.1) := by
  induction d with
  | nil => simp [dictInsert]
  | cons p rest ih =>
    rw [List.pairwise_cons] at hnd
    simp only [dictInsert]
    by_cases hpk : p.1 = k
    · rw [if_pos hpk]
      rw [List.pairwise_cons]
      refine ⟨?_, hnd.2⟩
      intro b hb
      rw [← hpk]
      exact hnd.1 b hb
    · rw [if_neg hpk]
      rw [List.pairwise_cons]
      refine ⟨?_, ih hnd.2⟩
      intro b hb
      rcases dictInsert_keys rest k v b hb with h1 | h2
      · rw [h1]
        exact hpk
      · exact hnd.1 b h2

/-- Membership in `dictInsert d k v` for a dict with pairwise-distinct keys:
the new binding of `k`, or an untouched old binding of a different key. -/
theorem dictInsert_mem (d : Headers) (k v : Str)
    (hnd : d.Pairwise (fun a b => a.1 ≠ b.1)) (q : Str × Str) :
    q ∈ dictInsert d k v ↔
      ((q.1 = k ∧ q.2 = v) ∨ (q.1 ≠ k ∧ q ∈ d)) := by
  induction d with
  | nil =>
    simp only [dictInsert, List.mem_singleton, List.not_mem_nil, and_false,
      or_false]
    constructor
    · intro hq
      rw [hq]
      exact ⟨rfl, rfl⟩
    · intro ⟨h1, h2⟩
      cases q
      simp_all
  | cons p rest ih =>
    rw [List.pairwise_cons] at hnd
    simp only [dictInsert]
    by_cases hpk : p.1 = k
    · rw [if_pos hpk]
      rw [List.mem_cons]
      constructor
      · rintro (hq | hq)
        · left
          rw [hq]
          exact ⟨rfl, rfl⟩
        · right
          have hne : p.1 ≠ q.1 := hnd.1 q hq
          refine ⟨?_, List.mem_cons_of_mem _ hq⟩
          rw [← hpk]
          intro hcontra
          exact hne hcontra.symm
      · rintro (⟨h1, h2⟩ | ⟨h1, h2⟩)
        · left
          cases q
          simp_all
        · right
          rcases List.mem_cons.mp h2 with hq | hq
          · exfalso
            apply h1
            rw [hq, hpk]
          · exact hq
    · rw [if_neg hpk]
      rw [List.mem_cons, ih hnd.2]
      constructor
      · rintro (hq | (⟨h1, h2⟩ | ⟨h1, h2⟩))
        · right
          constructor
          · rw [hq]
            exact hpk
          · rw [hq]
            exact List.mem_cons_self _ _
        · left
          exact ⟨h1, h2⟩
        · right
          exact ⟨h1, List.mem_cons_of_mem _ h2⟩
      · rintro (⟨h1, h2⟩ | ⟨h1, h2⟩)
        · right
          left
          exact ⟨h1, h2⟩
        · rcases List.mem_cons.mp h2 with hq | hq
          · left
            exact hq
          · right
            right
            exact ⟨h1, hq⟩

/-- Dropping a head pair whose normalised key differs from `k` does not
change the last value bound to `k`. -/
theorem lastValueFor_cons_ne (p : Str × Str) (rest : Headers) (k : Str)
    (h : normKey p.1 ≠ k) :
    lastValueFor (p :: rest) k = lastValueFor rest k := by
  simp only [lastValueFor]
  cases hlr : lastValueFor rest k
  · simp [h]
  · rfl

/-- With a head pair whose normalised key is `k`, the last value bound to
`k` is the later binding from the tail if present, else the head value. -/
theorem lastValueFor_cons_eq (p : Str × Str) (rest : Headers) (k : Str)
    (h : normKey p.1 = k) :
    lastValueFor (p :: rest) k =
      match lastValueFor rest k with
      | some v => some v
      | none => some p.2 := by
  simp only [lastValueFor]
  cases hlr : lastValueFor rest k
  · simp [h]
  · rfl

/-- A last value for `k` comes from some pair of the list whose normalised
key is `k`. -/
theorem lastValueFor_eq_some (hs : Headers) (k v : Str)
    (h : lastValueFor hs k = some v) :
    ∃ q ∈ hs, normKey q.1 = k ∧ q.2 = v := by
  induction hs with
  | nil => cases h
  | cons p rest ih =>
    simp only [lastValueFor] at h
    cases hlr : lastValueFor rest k with
    | some w =>
      rw [hlr] at h
      injection h with hv
      obtain ⟨q, hq, h1, h2⟩ := ih (by rw [hlr, hv])
      exact ⟨q, List.mem_cons_of_mem _ hq, h1, h2⟩
    | none =>
      rw [hlr] at h
      by_cases hk : normKey p.1 = k
      · rw [if_pos hk] at h
        injection h with hv
        exact ⟨p, List.mem_cons_self _ _, hk, hv⟩
      · rw [if_neg hk] at h
        cases h

/-- Every pair of the list contributes a last value for its normalised
key. -/
theorem lastValueFor_of_mem (hs : Headers) (q : Str × Str) (hq : q ∈ hs) :
    ∃ v, lastValueFor hs (normKey q.1) = some v := by
  induction hs with
  | nil => cases hq
  | cons p rest ih =>
    simp only [lastValueFor]
    rcases List.mem_cons.mp hq with hq1 | hq2
    · cases hlr : lastValueFor rest (normKey q.1) with
      | some w => exact ⟨w, rfl⟩
      | none =>
        refine ⟨p.2, ?_⟩
        rw [if_pos]
        rw [hq1]
    · obtain ⟨w, hw⟩ := ih hq2
      rw [hw]
      exact ⟨w, rfl⟩

/-- Membership characterisation of the sanitising loop: starting from an
accumulator with pairwise-distinct, unblocked keys, the final entries are
exactly the unblocked normalised keys of the input bound to their last
value, together with untouched accumulator entries for keys the input never
binds. -/
theorem sanitizeLoop_mem (hs : Headers) :
    ∀ (acc : Headers), acc.Pairwise (fun a b => a.1 ≠ b.1) →
      (∀ r ∈ acc, r.1 ∉ blockedHeaderKeys) →
      ∀ q : Str × Str,
        (q ∈ sanitizeLoop hs acc ↔
          (q.1 ∉ blockedHeaderKeys ∧
            (lastValueFor hs q.1 = some q.2 ∨
              (lastValueFor hs q.1 = none ∧ q ∈ acc)))) := by
  induction hs with
  | nil =>
    intro acc hpw hblk q
    simp only [sanitizeLoop, lastValueFor]
    constructor
    · intro hq
      exact ⟨hblk q hq, Or.inr ⟨by trivial, hq⟩⟩
    · rintro ⟨hnb, hsome | ⟨_, hmem⟩⟩
      · cases hsome
      · exact hmem
  | cons p rest ih =>
    intro acc hpw hblk q
    simp only [sanitizeLoop]
    by_cases hb : normKey p.1 ∈ blockedHeaderKeys
    · rw [if_pos hb, ih acc hpw hblk q]
      refine and_congr_right fun hnb => ?_
      rw [lastValueFor_cons_ne p rest q.1 (fun hc => hnb (hc ▸ hb))]
    · rw [if_neg hb]
      have hpw' := dictInsert_pairwise acc (normKey p.1) p.2 hpw
      have hblk' : ∀ r ∈ dictInsert acc (normKey p.1) p.2,
          r.1 ∉ blockedHeaderKeys := by
        intro r hr
        rcases dictInsert_keys acc (normKey p.1) p.2 r hr with h1 | h2
        · rw [h1]
          exact hb
        · exact hblk r h2
      rw [ih (dictInsert acc (normKey p.1) p.2) hpw' hblk' q]
      refine and_congr_right fun hnb => ?_
      by_cases hk : normKey p.1 = q.1
      · rw [lastValueFor_cons_eq p rest q.1 hk,
          dictInsert_mem acc (normKey p.1) p.2 hpw q]
        cases hlr : lastValueFor rest q.1 with
        | some w => simp
        | none => simp [← hk, eq_comm]
      · rw [lastValueFor_cons_ne p rest q.1 hk,
          dictInsert_mem acc (normKey p.1) p.2 hpw q]
        have hk' : q.1 ≠ normKey p.1 := fun hc => hk hc.symm
        simp [hk']

/-- A successful sanitisation returns exactly the loop's accumulated
dict. -/
theorem sanitize_headers_eq_some (hs clean : Headers)
    (h : _sanitize_headers (some hs) = some clean) :
    clean = sanitizeLoop hs [] := by
  simp only [_sanitize_headers] at h
  split_ifs at h
  · injection h with h
    exact h.symm

/-! Claim C6 (corrected): the sanitizer's removal and survival behaviour.
The claim as frozen fails on the code: a key is removed when its
lower-cased and whitespace-trimmed form is blocked, not merely when the key
itself is case-insensitively one of the four names, and surviving keys are
trimmed as well as lower-cased, with colliding keys collapsed to the last
value. -/

/-- Counterexample to C6 as stated: the key " Host " is not
case-insensitively equal to any of the four blocked names, so per the claim
it must survive (lower-cased, value unchanged) — but the code removes it
and returns the no-custom-headers value. -/
theorem sanitize_headers_claim_counterexample :
    _sanitize_headers (some [(strLit (" Host "), strLit ("v"))]) = none ∧
    _sanitize_headers (some [(strLit (" Host "), strLit ("v"))]) ≠
      some [(strLit (" host "), strLit ("v"))] := by
  constructor
  · decide
  · decide

/-- C6 (amended): the sanitizer removes exactly the keys whose lower-cased,
whitespace-trimmed form is one of host, content-length, transfer-encoding,
connection; an absent input, an empty input, or an input whose entries are
all removed yields the distinguished no-custom-headers value; and a
successful result binds exactly the unblocked normalised keys, each to the
value of the last input entry sharing that normalised key. -/
theorem sanitize_headers_normalized (hs : Headers) :
    (_sanitize_headers none = none) ∧
    ((_sanitize_headers (some hs) = none) ↔
      ∀ p ∈ hs, normKey p.1 ∈ blockedHeaderKeys) ∧
    (∀ clean, _sanitize_headers (some hs) = some clean →
      ∀ k v : Str, ((k, v) ∈ clean ↔
        (k ∉ blockedHeaderKeys ∧ lastValueFor hs k = some v))) := by
  refine ⟨rfl, ?_, ?_⟩
  · constructor
    · intro hnone p hp
      by_contra hnb
      obtain ⟨w, hw⟩ := lastValueFor_of_mem hs p hp
      have hmem : (normKey p.1, w) ∈ sanitizeLoop hs [] := by
        rw [sanitizeLoop_mem hs [] List.Pairwise.nil (by simp) (normKey p.1, w)]
        exact ⟨hnb, Or.inl hw⟩
      simp only [_sanitize_headers] at hnone
      by_cases hemp : hs.isEmpty
      · rw [List.isEmpty_iff.mp hemp] at hp
        cases hp
      · rw [if_neg hemp] at hnone
        by_cases hc : (sanitizeLoop hs []).isEmpty
        · rw [List.isEmpty_iff.mp hc] at hmem
          cases hmem
        · rw [if_neg hc] at hnone
          cases hnone
    · intro hall
      have hloop : sanitizeLoop hs [] = [] := by
        cases hq : sanitizeLoop hs [] with
        | nil => rfl
        | cons q rest =>
          exfalso
          have hmem : q ∈ sanitizeLoop hs [] := by
            rw [hq]
            exact List.mem_cons_self _ _
          rw [sanitizeLoop_mem hs [] List.Pairwise.nil (by simp) q] at hmem
          obtain ⟨hnb, hrest⟩ := hmem
          rcases hrest with hsome | ⟨_, hmem'⟩
          · obtain ⟨r, hr, hr1, _⟩ := lastValueFor_eq_some hs q.1 q.2 hsome
            exact hnb (hr1 ▸ hall r hr)
          · cases hmem'
      simp only [_sanitize_headers]
      by_cases hemp : hs.isEmpty
      · rw [if_pos hemp]
      · rw [if_neg hemp, hloop]
        simp
  · intro clean hcl k v
    rw [sanitize_headers_eq_some hs clean hcl,
      sanitizeLoop_mem hs [] List.Pairwise.nil (by simp) (k, v)]
    simp

/-- Input headers for the C6 witness: two keys collapsing to "a" and one
blocked key. -/
def hsC6 : Headers :=
  [(strLit ("A"), strLit ("1")), (strLit ("a "), strLit ("2")),
   (strLit ("Host"), strLit ("x"))]

/-- Witness for the amended C6: the surviving entry of the example input is
characterised by the unblocked normalised key bound to its last value. -/
theorem sanitize_headers_normalized_witness :
    ((strLit ("a"), strLit ("2")) ∈ [(strLit ("a"), strLit ("2"))] ↔
      (strLit ("a") ∉ blockedHeaderKeys ∧
        lastValueFor hsC6 (strLit ("a")) = some (strLit ("2")))) :=
  (sanitize_headers_normalized hsC6).2.2 [(strLit ("a"), strLit ("2"))]
    (by decide) (strLit ("a")) (strLit ("2"))

/-! Claim C9: the sanitizer trims whitespace from keys before classifying
them, returns surviving keys trimmed and lower-cased, and collapses keys
that agree after normalisation to one entry with the later value. -/

/-- C9: every surviving entry's key is the lower-cased, whitespace-trimmed
form of some input key and its value is that of the last input entry
sharing the normalised key (later value wins on collapse); the key " Host "
is removed despite not being literally "host"; and two keys that agree
after normalisation collapse to a single entry holding the later value. -/
theorem sanitize_headers_trim_collapse :
    (∀ hs clean, _sanitize_headers (some hs) = some clean →
      ∀ q ∈ clean, ∃ r ∈ hs, q.1 = normKey r.1 ∧
        lastValueFor hs q.1 = some q.2) ∧
    (_sanitize_headers (some [(strLit (" Host "), strLit ("v"))]) = none) ∧
    (_sanitize_headers
        (some [(strLit ("A"), strLit ("1")), (strLit (" a"), strLit ("2"))]) =
      some [(strLit ("a"), strLit ("2"))]) := by
  refine ⟨?_, by decide, by decide⟩
  intro hs clean hcl q hq
  rw [sanitize_headers_eq_some hs clean hcl,
    sanitizeLoop_mem hs [] List.Pairwise.nil (by simp) q] at hq
  obtain ⟨hnb, hrest⟩ := hq
  rcases hrest with hsome | ⟨_, hmem⟩
  · obtain ⟨r, hr, hr1, hr2⟩ := lastValueFor_eq_some hs q.1 q.2 hsome
    exact ⟨r, hr, hr1.symm, hsome⟩
  · cases hmem

/-- Witness for C9: in the two-entry collapsing input, the surviving entry
("a", "2") indeed takes its key from a normalised input key and its value
from the later entry. -/
theorem sanitize_headers_trim_collapse_witness :
    ∃ r ∈ [(strLit ("A"), strLit ("1")), (strLit (" a"), strLit ("2"))],
      strLit ("a") = normKey r.1 ∧
      lastValueFor [(strLit ("A"), strLit ("1")), (strLit (" a"), strLit ("2"))]
        (strLit ("a")) = some (strLit ("2")) :=
  sanitize_headers_trim_collapse.1
    [(strLit ("A"), strLit ("1")), (strLit (" a"), strLit ("2"))]
    [(strLit ("a"), strLit ("2"))] (by decide)
    (strLit ("a"), strLit ("2")) (by decide)
